import Mathlib

/-!
Shallow embedding of `crime_analytics.py` (a Python 2 crime-analytics
report generator) together with proofs about its operations.

Modelling conventions:
* a pandas dataframe is a `List` of records (structures whose fields are
  the normalized columns);
* machine floats that only carry data (coordinates, break values) are
  modelled as `ℚ`; missing values (`NaN` produced by `na_values`) as
  `Option`;
* timestamps are a calendar structure; the pandas accessors
  `Timestamp.dayofweek` / `Timestamp.hour` are computed from it
  (days-from-civil algorithm, Monday = 0 like pandas);
* third-party geometry (shapely) enters only through a polygon's
  containment test, so a polygon is modelled by that test;
* the astral sunrise/sunset computation is a parameter `sun` giving
  sunrise and sunset in epoch seconds for an astral city name and a date;
* Python functions that can raise are embedded in `Except String` /
  `Option`.
-/

namespace CrimeAnalytics

/-- Calendar timestamp, the shape of a pandas `Timestamp` as the script
uses it (year/month/day/hour/minute/second). -/
structure Timestamp where
  year : Int
  month : Nat
  day : Nat
  hour : Nat
  minute : Nat
  second : Nat
deriving DecidableEq, Repr

/-- Serial day number of a civil date (days since 1970-01-01, Howard
Hinnant's days-from-civil algorithm); basis of the pandas
`dayofweek` accessor and of epoch-second conversion. -/
def daysFromCivil (t : Timestamp) : Int :=
  let y : Int := if t.month ≤ 2 then t.year - 1 else t.year
  let era : Int := (if 0 ≤ y then y else y - 399) / 400
  let yoe : Int := y - era * 400
  let mp : Int := ((t.month : Int) + 9) % 12
  let doy : Int := (153 * mp + 2) / 5 + (t.day : Int) - 1
  let doe : Int := yoe * 365 + yoe / 4 - yoe / 100 + doy
  era * 146097 + doe - 719468

/-- pandas `Timestamp.dayofweek`: Monday = 0 … Sunday = 6
(1970-01-01 was a Thursday, hence the offset 3). -/
def dayofweek (t : Timestamp) : Nat :=
  ((daysFromCivil t + 3) % 7).toNat

/-- Epoch seconds of a timestamp, used to compare against sunrise and
sunset in `is_at_night`. -/
def toEpoch (t : Timestamp) : Int :=
  daysFromCivil t * 86400 + (t.hour : Int) * 3600 + (t.minute : Int) * 60 + (t.second : Int)

theorem dayofweek_lt_7 (t : Timestamp) : dayofweek t < 7 := by
  have h7 : (0 : Int) < 7 := by decide
  have h := Int.emod_lt_of_pos (daysFromCivil t + 3) h7
  have h0 := Int.emod_nonneg (daysFromCivil t + 3) (by decide : (7 : Int) ≠ 0)
  unfold dayofweek
  omega

/-! ### Map utils (`count_points_in_polygon`, `self_categorize`) -/

/-- A geographic point (shapely `Point`), projected map coordinates. -/
def Pt : Type := ℚ × ℚ
deriving DecidableEq

/-- A neighborhood polygon. The script only ever consults a polygon
through shapely's prepared containment test `prep(polygon).contains`, so
the polygon is modelled by that test. -/
structure Polygon where
  containsPt : Pt → Bool

/-- Embedding of `count_points_in_polygon(polygon, points)`:
`len(filter(prep(polygon).contains, points))` (Python 2 `filter` returns a
list, `len` its length). -/
def count_points_in_polygon (polygon : Polygon) (points : List Pt) : Nat :=
  (points.filter polygon.containsPt).length

/-- Loop of `self_categorize`: `for i in range(len(breaks)-1): if
entry > breaks[i] and entry <= breaks[i+1]: return i` over the remaining
break list, carrying the index reached so far; falls through to `-1`. -/
def scLoop (entry : ℚ) : Nat → List ℚ → Int
  | _, [] => -1
  | _, [_] => -1
  | i, b0 :: b1 :: rest =>
    if b0 < entry ∧ entry ≤ b1 then (i : Int) else scLoop entry (i + 1) (b1 :: rest)

/-- Embedding of `self_categorize(entry, breaks)`. -/
def self_categorize (entry : ℚ) (breaks : List ℚ) : Int :=
  scLoop entry 0 breaks

/-- The condition tested at index `j` of the loop of `self_categorize`:
`breaks[j] < entry <= breaks[j+1]` with `j+1` in range. -/
def adjHit (entry : ℚ) (breaks : List ℚ) (j : Nat) : Prop :=
  j + 1 < breaks.length ∧ breaks.getD j 0 < entry ∧ entry ≤ breaks.getD (j + 1) 0

/-- The `breaks` list built in `map_neighborhood` (`num_breaks = 8`):
`[0.] + [i * max_count / 8 for i in range(8)] + [1e20]`; its first two
entries are both `0`. -/
def map_neighborhood_breaks (max_count : Nat) : List ℚ :=
  [0] ++ (List.range 8).map (fun i : ℕ => (i : ℚ) * (max_count : ℚ) / 8) ++ [10 ^ 20]

theorem scLoop_spec (entry : ℚ) : ∀ (bs : List ℚ) (i : Nat),
    (scLoop entry i bs = -1 ∧ ∀ j, ¬ adjHit entry bs j) ∨
    (∃ j : Nat, scLoop entry i bs = ((i + j : Nat) : Int) ∧ adjHit entry bs j ∧
      ∀ k < j, ¬ adjHit entry bs k) := by
  intro bs
  induction bs with
  | nil =>
    intro i
    exact Or.inl ⟨rfl, fun j hj => by simp [adjHit] at hj⟩
  | cons b0 tail ih =>
    intro i
    cases tail with
    | nil =>
      exact Or.inl ⟨rfl, fun j hj => by
        rcases hj with ⟨hlen, _⟩
        simp at hlen⟩
    | cons b1 rest =>
      by_cases hhit : b0 < entry ∧ entry ≤ b1
      · refine Or.inr ⟨0, ?_, ?_, ?_⟩
        · simp [scLoop, hhit]
        · exact ⟨by simp, by simpa using hhit.1, by simpa using hhit.2⟩
        · intro k hk; omega
      · have hstep : scLoop entry i (b0 :: b1 :: rest) = scLoop entry (i + 1) (b1 :: rest) := by
          simp [scLoop, hhit]
        have hshift : ∀ j, adjHit entry (b0 :: b1 :: rest) (j + 1) ↔ adjHit entry (b1 :: rest) j := by
          intro j
          unfold adjHit
          constructor
          · rintro ⟨hl, ha, hb⟩
            exact ⟨by simpa using hl, by simpa using ha, by simpa using hb⟩
          · rintro ⟨hl, ha, hb⟩
            exact ⟨by simpa using hl, by simpa using ha, by simpa using hb⟩
        have hzero : ¬ adjHit entry (b0 :: b1 :: rest) 0 := by
          unfold adjHit
          rintro ⟨_, ha, hb⟩
          exact hhit ⟨by simpa using ha, by simpa using hb⟩
        rcases ih (i + 1) with ⟨hres, hnone⟩ | ⟨j, hres, hj, hmin⟩
        · refine Or.inl ⟨hstep.trans hres, ?_⟩
          intro j
          cases j with
          | zero => exact hzero
          | succ j => exact fun h => hnone j ((hshift j).mp h)
        · refine Or.inr ⟨j + 1, ?_, (hshift j).mpr hj, ?_⟩
          · rw [hstep, hres]; norm_cast; omega
          · intro k hk
            cases k with
            | zero => exact hzero
            | succ k => exact fun h => hmin k (by omega) ((hshift k).mp h)

theorem map_neighborhood_breaks_nonneg (max_count : Nat) :
    ∀ b ∈ map_neighborhood_breaks max_count, 0 ≤ b := by
  intro b hb
  unfold map_neighborhood_breaks at hb
  rcases List.mem_append.mp hb with h1 | h4
  · rcases List.mem_append.mp h1 with h2 | h3
    · rw [List.mem_singleton.mp h2]
    · rcases List.mem_map.mp h3 with ⟨i, _, rfl⟩
      positivity
  · rw [List.mem_singleton.mp h4]
    positivity

/-- C8: `self_categorize` returns the first index `i` with
`breaks[i] < entry <= breaks[i+1]` and `-1` when no index qualifies; with
the `breaks` list of `map_neighborhood` (which starts with two zero
entries), a polygon whose incident count is `0` is assigned bin `-1`. -/
theorem self_categorize_first_hit_and_zero_bin :
    (∀ (entry : ℚ) (breaks : List ℚ),
      (self_categorize entry breaks = -1 ∧ ∀ j, ¬ adjHit entry breaks j) ∨
      (∃ j : Nat, self_categorize entry breaks = (j : Int) ∧ adjHit entry breaks j ∧
        ∀ k < j, ¬ adjHit entry breaks k)) ∧
    (∀ max_count : Nat, self_categorize 0 (map_neighborhood_breaks max_count) = -1) := by
  constructor
  · intro entry breaks
    have h := scLoop_spec entry breaks 0
    simpa [self_categorize] using h
  · intro max_count
    rcases scLoop_spec 0 (map_neighborhood_breaks max_count) 0 with ⟨hres, _⟩ | ⟨j, _, hj, _⟩
    · simpa [self_categorize] using hres
    · exfalso
      rcases hj with ⟨hlen, hlt, _⟩
      have hj' : j < (map_neighborhood_breaks max_count).length := by omega
      have hmem : (map_neighborhood_breaks max_count).getD j 0 ∈ map_neighborhood_breaks max_count := by
        rw [List.getD_eq_getElem _ _ hj']
        exact List.getElem_mem hj'
      have := map_neighborhood_breaks_nonneg max_count _ hmem
      linarith

/-- C1: `count_points_in_polygon(polygon, points)` is exactly the number
of points of the collection that the polygon contains: it equals
`countP` of the containment test, and adding the points the polygon does
not contain recovers the whole collection. -/
theorem count_points_in_polygon_counts :
    (∀ (polygon : Polygon) (points : List Pt),
      count_points_in_polygon polygon points = points.countP polygon.containsPt) ∧
    (∀ (polygon : Polygon) (points : List Pt),
      count_points_in_polygon polygon points +
        points.countP (fun p => ! polygon.containsPt p) = points.length) := by
  constructor
  · intro polygon points
    rw [count_points_in_polygon, List.countP_eq_length_filter]
  · intro polygon points
    rw [count_points_in_polygon, ← List.countP_eq_length_filter]
    have h := (List.length_eq_countP_add_countP polygon.containsPt points).symm
    simpa using h

/-! ### `int_with_commas` -/

/-- Python `"%03d" % n` for `0 ≤ n < 1000`: decimal digits of `n`
left-padded with zeros to width three. -/
def pad3 (n : Nat) : String :=
  if n < 10 then "00" ++ Nat.repr n
  else if n < 100 then "0" ++ Nat.repr n
  else Nat.repr n

/-- The `while x >= 1000` loop of `int_with_commas`, carrying the
`result` string built so far: each round prepends `",%03d"` of the last
three digits, and the loop exits by prepending the remaining digits. -/
def commaLoop (x : Nat) (result : String) : String :=
  if h : 1000 ≤ x then commaLoop (x / 1000) ("," ++ pad3 (x % 1000) ++ result)
  else Nat.repr x ++ result
termination_by x
decreasing_by exact Nat.div_lt_self (by omega) (by omega)

/-- Embedding of `int_with_commas(x)`. The negative branch executes
`return '-' + intWithCommas(-x)` where `intWithCommas` is an undefined
name, so calling it with `x < 0` raises `NameError` and returns nothing:
`none`. -/
def int_with_commas (x : Int) : Option String :=
  if x < 0 then none
  else some (commaLoop x.toNat "")

/-- Modelled from the claim's words: the decimal representation of `x`
with a comma separating each group of three digits, middle groups
zero-padded to width three. -/
def decimal_grouped (x : Nat) : String :=
  if h : 1000 ≤ x then decimal_grouped (x / 1000) ++ ("," ++ pad3 (x % 1000))
  else Nat.repr x
termination_by x
decreasing_by exact Nat.div_lt_self (by omega) (by omega)

theorem decimal_grouped_step {x : Nat} (h : 1000 ≤ x) :
    decimal_grouped x = decimal_grouped (x / 1000) ++ ("," ++ pad3 (x % 1000)) := by
  rw [decimal_grouped, dif_pos h]

theorem decimal_grouped_of_lt {x : Nat} (h : x < 1000) :
    decimal_grouped x = Nat.repr x := by
  rw [decimal_grouped, dif_neg (by omega)]

theorem commaLoop_eq_decimal_grouped :
    ∀ (x : Nat) (r : String), commaLoop x r = decimal_grouped x ++ r := by
  intro x
  induction x using Nat.strong_induction_on with
  | _ x ih =>
    intro r
    rw [commaLoop, decimal_grouped]
    by_cases h : 1000 ≤ x
    · simp only [h, dite_true]
      rw [ih (x / 1000) (Nat.div_lt_self (by omega) (by omega))]
      simp [String.append_assoc]
    · simp only [h, dite_false]

/-- C10: for nonnegative `x`, `int_with_commas` returns the decimal
representation of `x` in comma-separated groups of three digits with
zero-padded middle groups; for negative `x` the call fails (`NameError`
on the undefined `intWithCommas`), returning no value. -/
theorem int_with_commas_spec :
    (∀ x : Int, x < 0 → int_with_commas x = none) ∧
    (∀ x : Int, 0 ≤ x → int_with_commas x = some (decimal_grouped x.toNat)) ∧
    int_with_commas 1234567 = some "1,234,567" ∧
    int_with_commas 1000005 = some "1,000,005" := by
  refine ⟨?_, ?_, ?_, ?_⟩
  · intro x hx
    simp [int_with_commas, hx]
  · intro x hx
    rw [int_with_commas, if_neg (by omega), commaLoop_eq_decimal_grouped]
    simp
  · rw [int_with_commas, if_neg (by omega), commaLoop_eq_decimal_grouped]
    rw [show ((1234567 : Int).toNat) = 1234567 from rfl]
    rw [decimal_grouped_step (by norm_num),
      show (1234567 : ℕ) / 1000 = 1234 from by norm_num,
      show (1234567 : ℕ) % 1000 = 567 from by norm_num]
    rw [decimal_grouped_step (by norm_num),
      show (1234 : ℕ) / 1000 = 1 from by norm_num,
      show (1234 : ℕ) % 1000 = 234 from by norm_num]
    rw [decimal_grouped_of_lt (by norm_num)]
    rfl
  · rw [int_with_commas, if_neg (by omega), commaLoop_eq_decimal_grouped]
    rw [show ((1000005 : Int).toNat) = 1000005 from rfl]
    rw [decimal_grouped_step (by norm_num),
      show (1000005 : ℕ) / 1000 = 1000 from by norm_num,
      show (1000005 : ℕ) % 1000 = 5 from by norm_num]
    rw [decimal_grouped_step (by norm_num),
      show (1000 : ℕ) / 1000 = 1 from by norm_num,
      show (1000 : ℕ) % 1000 = 0 from by norm_num]
    rw [decimal_grouped_of_lt (by norm_num)]
    rfl

/-! ### CSV readers

`pd.read_csv` with `na_values` / blank cells can produce missing (`NaN`)
coordinates and dates, and the parsers drop no rows, so coordinate and
date fields are `Option`-valued. The embeddings model the
`normalize=True` branch, the branch every caller of the script uses. -/

/-- One row of the Seattle CSV as `parse_csv_seattle` reads it
(`usecols = [2,..,15]` with the declared dtypes; `na_values=["X"]` and
blank cells make the float and date columns nullable). -/
structure SeattleRaw where
  offenseCode : String
  offenseCodeExt : String
  offenseType : String
  summaryCode : String
  desc : String
  dateReported : Option Timestamp
  occurredStart : Option Timestamp
  occurredEnd : Option Timestamp
  district : String
  zone : String
  longitude : Option ℚ
  latitude : Option ℚ
deriving DecidableEq

/-- A normalized Seattle record: the column selection and renaming of
lines 62-63 (`["Cat", "Time", "X", "Y", "TimeRep", "TimeEnd"]`). -/
structure SeattleNorm where
  cat : String
  time : Option Timestamp
  x : Option ℚ
  y : Option ℚ
  timeRep : Option Timestamp
  timeEnd : Option Timestamp
deriving DecidableEq

/-- Column names of the normalized Seattle dataframe (line 63). -/
def seattleNormColumns : List String :=
  ["Cat", "Time", "X", "Y", "TimeRep", "TimeEnd"]

/-- The per-row effect of the `normalize` branch of `parse_csv_seattle`:
select the six columns and rename them. -/
def normalizeSeattle (r : SeattleRaw) : SeattleNorm :=
  ⟨r.desc, r.occurredStart, r.longitude, r.latitude, r.dateReported, r.occurredEnd⟩

/-- Embedding of `parse_csv_seattle(normalize=True)` as a function of the
CSV rows read. -/
def parse_csv_seattle (rows : List SeattleRaw) : List SeattleNorm :=
  rows.map normalizeSeattle

/-- One row of the San Francisco CSV as `parse_csv_sanfrancisco` reads it
(`usecols = [1,..,10]`: Category, Descript, DayOfWeek, Date, Time,
PdDistrict, Resolution, X, Y; Date and Time are parsed as datetimes). -/
structure SFRaw where
  category : String
  descript : String
  dayOfWeek : String
  date : Timestamp
  time : Timestamp
  pdDistrict : String
  resolution : String
  x : Option ℚ
  y : Option ℚ
deriving DecidableEq

/-- A normalized San Francisco record: the column selection and renaming
of lines 88-89 (`["Cat", "Time", "X", "Y", "Res"]`). -/
structure SFNorm where
  cat : String
  time : Timestamp
  x : Option ℚ
  y : Option ℚ
  res : String
deriving DecidableEq

/-- Column names of the normalized San Francisco dataframe (line 89). -/
def sanfranciscoNormColumns : List String :=
  ["Cat", "Time", "X", "Y", "Res"]

/-- Embedding of the `merge_timedate` closure: `r["Time"].replace(year=
d.year, month=d.month, day=d.day)` with `d = r["Date"]`. -/
def merge_timedate (r : SFRaw) : Timestamp :=
  { r.time with year := r.date.year, month := r.date.month, day := r.date.day }

/-- The per-row effect of the `normalize` branch of
`parse_csv_sanfrancisco`. -/
def normalizeSF (r : SFRaw) : SFNorm :=
  ⟨r.category, merge_timedate r, r.x, r.y, r.resolution⟩

/-- Embedding of `parse_csv_sanfrancisco(normalize=True,
remove_non_criminal)` as a function of the CSV rows read: normalization
first, then (when asked) the `df["Cat"] != "NON-CRIMINAL"` filter. -/
def parse_csv_sanfrancisco (remove_non_criminal : Bool) (rows : List SFRaw) : List SFNorm :=
  let df := rows.map normalizeSF
  if remove_non_criminal then df.filter (fun r => r.cat != "NON-CRIMINAL") else df

/-- Check that a normalized Seattle record carries actual (non-missing)
values for Time, X and Y. -/
def hasTimeXY (r : SeattleNorm) : Bool :=
  r.time.isSome && r.x.isSome && r.y.isSome

/-- A Seattle CSV row whose Longitude cell was `"X"`, which
`na_values=["X"]` turns into `NaN`: its longitude is missing. -/
def seattleRowMissingX : SeattleRaw :=
  { offenseCode := "2300"
    offenseCodeExt := "0"
    offenseType := "BURGLARY-FORCE-RES"
    summaryCode := "2300"
    desc := "BURGLARY"
    dateReported := some ⟨2014, 6, 15, 10, 0, 0⟩
    occurredStart := some ⟨2014, 6, 14, 22, 30, 0⟩
    occurredEnd := none
    district := "B"
    zone := "B1"
    longitude := none
    latitude := some ((476 : ℚ) / 10) }

/-- C3 (counterexample): normalization does not make longitude present —
the parser keeps a row whose X is missing, so not every normalized record
has Time, X and Y values. -/
theorem parse_csv_seattle_keeps_missing_X :
    (parse_csv_seattle [seattleRowMissingX]).all hasTimeXY = false := by
  rfl

/-- C3 (amended): after normalization every record has the Time, X and Y
columns — the normalized schema begins `Cat, Time, X, Y` — and this
column shape is the only invariant: no row is dropped, each record's
fields are the selected input fields unchanged (so values, including
missing ones, pass through), and every combination of field values is
reachable. -/
theorem normalized_shape_only_invariant :
    (seattleNormColumns.take 4 = ["Cat", "Time", "X", "Y"] ∧
      sanfranciscoNormColumns.take 4 = ["Cat", "Time", "X", "Y"]) ∧
    (∀ rows : List SeattleRaw, (parse_csv_seattle rows).length = rows.length) ∧
    (∀ (rows : List SeattleRaw) (r : SeattleNorm),
      r ∈ parse_csv_seattle rows ↔ ∃ s ∈ rows, r = normalizeSeattle s) ∧
    (∀ s : SeattleRaw,
      (normalizeSeattle s).cat = s.desc ∧
      (normalizeSeattle s).time = s.occurredStart ∧
      (normalizeSeattle s).x = s.longitude ∧
      (normalizeSeattle s).y = s.latitude ∧
      (normalizeSeattle s).timeRep = s.dateReported ∧
      (normalizeSeattle s).timeEnd = s.occurredEnd) ∧
    (∀ rows : List SFRaw, (parse_csv_sanfrancisco false rows).length = rows.length) ∧
    (∀ (rows : List SFRaw) (r : SFNorm),
      r ∈ parse_csv_sanfrancisco false rows ↔ ∃ s ∈ rows, r = normalizeSF s) ∧
    (∀ s : SFRaw,
      (normalizeSF s).cat = s.category ∧
      (normalizeSF s).time = merge_timedate s ∧
      (normalizeSF s).x = s.x ∧
      (normalizeSF s).y = s.y ∧
      (normalizeSF s).res = s.resolution) ∧
    (∀ target : SeattleNorm, ∃ s : SeattleRaw, normalizeSeattle s = target) := by
  refine ⟨⟨rfl, rfl⟩, ?_, ?_, ?_, ?_, ?_, ?_, ?_⟩
  · intro rows
    simp [parse_csv_seattle]
  · intro rows r
    simp only [parse_csv_seattle, List.mem_map]
    constructor
    · rintro ⟨s, hs, rfl⟩
      exact ⟨s, hs, rfl⟩
    · rintro ⟨s, hs, rfl⟩
      exact ⟨s, hs, rfl⟩
  · intro s
    exact ⟨rfl, rfl, rfl, rfl, rfl, rfl⟩
  · intro rows
    simp [parse_csv_sanfrancisco]
  · intro rows r
    simp only [parse_csv_sanfrancisco, if_neg Bool.false_ne_true, List.mem_map]
    constructor
    · rintro ⟨s, hs, rfl⟩
      exact ⟨s, hs, rfl⟩
    · rintro ⟨s, hs, rfl⟩
      exact ⟨s, hs, rfl⟩
  · intro s
    exact ⟨rfl, rfl, rfl, rfl, rfl⟩
  · intro target
    exact ⟨⟨"", "", "", "", target.cat, target.timeRep, target.time, target.timeEnd,
      "", "", target.x, target.y⟩, rfl⟩

/-- C4: both readers normalize to a common record shape — the normalized
dataframes both begin with the columns `Cat, Time, X, Y` — and the San
Francisco reader merges Date into Time: the merged timestamp carries the
Date column's year, month and day and the Time column's clock fields,
and it is the Time value of every normalized record. -/
theorem normalized_common_shape :
    (seattleNormColumns.take 4 = ["Cat", "Time", "X", "Y"] ∧
      sanfranciscoNormColumns.take 4 = ["Cat", "Time", "X", "Y"]) ∧
    (∀ r : SFRaw,
      (merge_timedate r).year = r.date.year ∧
      (merge_timedate r).month = r.date.month ∧
      (merge_timedate r).day = r.date.day ∧
      (merge_timedate r).hour = r.time.hour ∧
      (merge_timedate r).minute = r.time.minute ∧
      (merge_timedate r).second = r.time.second) ∧
    (∀ (b : Bool) (rows : List SFRaw) (r : SFNorm),
      r ∈ parse_csv_sanfrancisco b rows → ∃ s ∈ rows, r.time = merge_timedate s) := by
  refine ⟨⟨rfl, rfl⟩, ?_, ?_⟩
  · intro r
    exact ⟨rfl, rfl, rfl, rfl, rfl, rfl⟩
  · intro b rows r hr
    have hmem : r ∈ rows.map normalizeSF := by
      cases b with
      | false => simpa [parse_csv_sanfrancisco] using hr
      | true =>
        simp only [parse_csv_sanfrancisco, if_pos rfl] at hr
        exact List.mem_of_mem_filter hr
    rcases List.mem_map.mp hmem with ⟨s, hs, rfl⟩
    exact ⟨s, hs, rfl⟩

/-- C9: with `normalize=True` and `remove_non_criminal=True` the San
Francisco reader returns no record whose category is `NON-CRIMINAL`, and
every other normalized record is retained with its multiplicity, in the
original order (the filtered frame is a sublist of the unfiltered one). -/
theorem parse_csv_sanfrancisco_removes_non_criminal :
    ∀ rows : List SFRaw,
      (∀ r ∈ parse_csv_sanfrancisco true rows, r.cat ≠ "NON-CRIMINAL") ∧
      (parse_csv_sanfrancisco true rows).Sublist (parse_csv_sanfrancisco false rows) ∧
      (∀ r : SFNorm, r.cat ≠ "NON-CRIMINAL" →
        (parse_csv_sanfrancisco true rows).count r =
          (parse_csv_sanfrancisco false rows).count r) := by
  intro rows
  have htrue : parse_csv_sanfrancisco true rows =
      (rows.map normalizeSF).filter (fun r => r.cat != "NON-CRIMINAL") := by
    simp [parse_csv_sanfrancisco]
  have hfalse : parse_csv_sanfrancisco false rows = rows.map normalizeSF := by
    simp [parse_csv_sanfrancisco]
  refine ⟨?_, ?_, ?_⟩
  · intro r hr
    rw [htrue] at hr
    have := List.of_mem_filter hr
    simpa using this
  · rw [htrue, hfalse]
    exact List.filter_sublist _
  · intro r hne
    rw [htrue, hfalse]
    rw [List.count_filter]
    simp [hne]

/-! ### Day/night and category filtering -/

/-- A row of a normalized dataframe as the analysis helpers consume it:
both normalized datasets expose the columns `Cat, Time, X, Y` followed by
source-specific trailing columns (`rest`), which the filters must carry
through unchanged. -/
structure DRow where
  cat : String
  time : Timestamp
  x : Option ℚ
  y : Option ℚ
  rest : List String
deriving DecidableEq

/-- Sunrise/sunset oracle standing for astral's `cityinfo.sun(date=dt)`:
`(sunrise, sunset)` in epoch seconds for an astral city name and the
given timestamp's date. astral is a third-party library, so it enters the
embedding as a parameter. -/
def SunOracle : Type := String → Timestamp → Int × Int

/-- The night formula of `is_at_night` (line 217): the timestamp is at
least 30 minutes (1800 s) before sunrise or at least 30 minutes after
sunset. -/
def nightTest (sun : SunOracle) (astralCity : String) (ts : Timestamp) : Bool :=
  let s := sun astralCity ts
  let dt := toEpoch ts
  decide (1800 ≤ s.1 - dt) || decide (1800 ≤ dt - s.2)

/-- Embedding of `is_at_night(ts, city)`: the supported city keys map to
astral city names, any other city raises `ValueError`. -/
def is_at_night (sun : SunOracle) (ts : Timestamp) (city : String) : Except String Bool :=
  if city = "seattle" then .ok (nightTest sun "Seattle" ts)
  else if city = "sanfrancisco" then .ok (nightTest sun "San Francisco" ts)
  else .error "unsupported city"

/-- `df.loc[df["Time"].apply(pred)]` for a row predicate that can raise:
keeps the rows where the predicate returns true and propagates the first
exception. -/
def exceptFilter (p : DRow → Except String Bool) : List DRow → Except String (List DRow)
  | [] => .ok []
  | r :: rs =>
    match p r with
    | .error e => .error e
    | .ok b =>
      match exceptFilter p rs with
      | .error e => .error e
      | .ok rest => .ok (if b then r :: rest else rest)

/-- Embedding of `filter_day(df, city)`: keep the rows whose timestamp is
not at night. -/
def filter_day (sun : SunOracle) (df : List DRow) (city : String) :
    Except String (List DRow) :=
  exceptFilter (fun r =>
    match is_at_night sun r.time city with
    | .error e => .error e
    | .ok b => .ok (! b)) df

/-- Embedding of `filter_night(df, city)`: keep the rows whose timestamp
is at night. -/
def filter_night (sun : SunOracle) (df : List DRow) (city : String) :
    Except String (List DRow) :=
  exceptFilter (fun r => is_at_night sun r.time city) df

/-- Embedding of `filter_cat(df, cat)`: `df.loc[df["Cat"] == cat]`. -/
def filter_cat (df : List DRow) (cat : String) : List DRow :=
  df.filter (fun r => r.cat == cat)

theorem exceptFilter_ok (p : DRow → Except String Bool) (q : DRow → Bool)
    (h : ∀ r, p r = .ok (q r)) :
    ∀ df : List DRow, exceptFilter p df = .ok (df.filter q) := by
  intro df
  induction df with
  | nil => rfl
  | cons r rs ih =>
    simp only [exceptFilter, h r, ih, List.filter_cons]

theorem exceptFilter_sublist (p : DRow → Except String Bool) :
    ∀ df out : List DRow, exceptFilter p df = .ok out → out.Sublist df := by
  intro df
  induction df with
  | nil =>
    intro out h
    simp only [exceptFilter] at h
    cases h
    exact List.Sublist.refl _
  | cons r rs ih =>
    intro out h
    simp only [exceptFilter] at h
    cases hp : p r with
    | error e => rw [hp] at h; cases h
    | ok b =>
      rw [hp] at h
      cases hrec : exceptFilter p rs with
      | error e => rw [hrec] at h; cases h
      | ok rest =>
        rw [hrec] at h
        cases b with
        | true =>
          have hout : out = r :: rest := by simpa using h.symm
          subst hout
          exact (ih rest hrec).cons₂ r
        | false =>
          have hout : out = rest := by simpa using h.symm
          rw [hout]
          exact (ih rest hrec).cons r

theorem count_filter_partition (nb : DRow → Bool) (df : List DRow) :
    ∀ r : DRow,
      (df.filter (fun x => ! nb x)).count r + (df.filter nb).count r = df.count r := by
  intro r
  have hzero : ∀ (p : DRow → Bool), ¬ p r = true →
      List.count r (List.filter p df) = 0 := by
    intro p hp
    rw [List.count_eq_zero]
    intro hmem
    exact hp (List.mem_filter.mp hmem).2
  by_cases hr : nb r = true
  · rw [List.count_filter hr, hzero (fun x => ! nb x) (by simp [hr])]
    omega
  · rw [List.count_filter (p := fun x => ! nb x) (by simp [hr]), hzero nb hr]
    omega

theorem filter_partition_disjoint (nb : DRow → Bool) (df : List DRow) :
    ∀ r : DRow, ¬ (r ∈ df.filter (fun x => ! nb x) ∧ r ∈ df.filter nb) := by
  rintro r ⟨hd, hn⟩
  have h1 := (List.mem_filter.mp hd).2
  have h2 := (List.mem_filter.mp hn).2
  rw [Bool.not_eq_true'] at h1
  exact absurd (h2.symm.trans h1) (by decide)

/-- C2: for a supported city, `filter_day` and `filter_night` partition
the dataframe along a boolean night flag: night keeps exactly the rows
whose timestamp `is_at_night` reports as night, day the others; the two
results are disjoint and together hold every row of `df` with its
multiplicity. -/
theorem filter_day_night_partition (sun : SunOracle) (df : List DRow) (city : String)
    (h : city = "seattle" ∨ city = "sanfrancisco") :
    ∃ nb : DRow → Bool,
      filter_day sun df city = .ok (df.filter (fun r => ! nb r)) ∧
      filter_night sun df city = .ok (df.filter nb) ∧
      (∀ r : DRow, is_at_night sun r.time city = .ok (nb r)) ∧
      (∀ r : DRow, r ∈ df.filter nb ↔ r ∈ df ∧ nb r = true) ∧
      (∀ r : DRow, r ∈ df.filter (fun r => ! nb r) ↔ r ∈ df ∧ nb r = false) ∧
      (∀ r : DRow,
        (df.filter (fun r => ! nb r)).count r + (df.filter nb).count r = df.count r) ∧
      (∀ r : DRow, ¬ (r ∈ df.filter (fun r => ! nb r) ∧ r ∈ df.filter nb)) := by
  have hnight : ∃ astralCity, ∀ ts,
      is_at_night sun ts city = .ok (nightTest sun astralCity ts) := by
    rcases h with rfl | rfl
    · exact ⟨"Seattle", fun ts => by simp [is_at_night]⟩
    · exact ⟨"San Francisco", fun ts => by simp [is_at_night]⟩
  rcases hnight with ⟨astralCity, hciti⟩
  refine ⟨fun r => nightTest sun astralCity r.time, ?_, ?_, ?_, ?_, ?_, ?_, ?_⟩
  · exact exceptFilter_ok _ _ (fun r => by rw [hciti r.time]) df
  · exact exceptFilter_ok _ _ (fun r => hciti r.time) df
  · exact fun r => hciti r.time
  · intro r
    rw [List.mem_filter]
  · intro r
    rw [List.mem_filter]
    simp
  · exact count_filter_partition _ df
  · exact filter_partition_disjoint _ df

/-- A fixed sunrise/sunset oracle (sunrise 06:00, sunset 20:00 on the
timestamp's own day) used to instantiate theorems about the day/night
split on concrete data. -/
def sunFixed : SunOracle :=
  fun _ ts => (daysFromCivil ts * 86400 + 21600, daysFromCivil ts * 86400 + 72000)

/-- A concrete normalized row (a late-evening burglary). -/
def sampleRow : DRow :=
  ⟨"BURGLARY", ⟨2014, 6, 14, 23, 0, 0⟩, none, none, []⟩

/-- C2 (witness): the partition theorem applied to a concrete dataframe
and the city key `seattle`. -/
theorem filter_day_night_partition_witness :
    ∃ nb : DRow → Bool,
      filter_day sunFixed [sampleRow] "seattle" = .ok ([sampleRow].filter (fun r => ! nb r)) ∧
      filter_night sunFixed [sampleRow] "seattle" = .ok ([sampleRow].filter nb) ∧
      (∀ r : DRow, is_at_night sunFixed r.time "seattle" = .ok (nb r)) ∧
      (∀ r : DRow, r ∈ [sampleRow].filter nb ↔ r ∈ [sampleRow] ∧ nb r = true) ∧
      (∀ r : DRow, r ∈ [sampleRow].filter (fun r => ! nb r) ↔ r ∈ [sampleRow] ∧ nb r = false) ∧
      (∀ r : DRow,
        ([sampleRow].filter (fun r => ! nb r)).count r + ([sampleRow].filter nb).count r =
          [sampleRow].count r) ∧
      (∀ r : DRow, ¬ (r ∈ [sampleRow].filter (fun r => ! nb r) ∧ r ∈ [sampleRow].filter nb)) :=
  filter_day_night_partition sunFixed [sampleRow] "seattle" (Or.inl rfl)

/-- C5: the filters return row subsets of the input dataframe: every
retained record appears in the input, in the input's order, with every
field (all columns, the trailing ones included) unchanged — `Sublist`
states exactly that. The input list itself is immutable, and `filter_cat`
keeps exactly the rows of the requested category. -/
theorem filters_return_row_subsets :
    ∀ (sun : SunOracle) (df : List DRow) (city cat : String),
      (filter_cat df cat).Sublist df ∧
      (∀ r ∈ filter_cat df cat, r.cat = cat) ∧
      (∀ r ∈ df, r.cat = cat → r ∈ filter_cat df cat) ∧
      (∀ out, filter_day sun df city = .ok out → out.Sublist df) ∧
      (∀ out, filter_night sun df city = .ok out → out.Sublist df) := by
  intro sun df city cat
  refine ⟨List.filter_sublist _, ?_, ?_, ?_, ?_⟩
  · intro r hr
    have := List.of_mem_filter hr
    simpa using this
  · intro r hr hc
    exact List.mem_filter.mpr ⟨hr, by simp [hc]⟩
  · exact fun out => exceptFilter_sublist _ df out
  · exact fun out => exceptFilter_sublist _ df out

/-! ### Day-of-week and hour curves -/

/-- Increment slot `i` of a count vector (`ret[name][i] += 1`). -/
def bump : List Nat → Nat → List Nat
  | [], _ => []
  | x :: xs, 0 => (x + 1) :: xs
  | x :: xs, n + 1 => x :: bump xs n

/-- Weekday count vector of one dataframe: the inner loop of
`curve_by_weekday` (`ret[name][row["Time"].dayofweek] += 1` over the
rows) started from `[0 for x in range(7)]`. -/
def weekCounts (rows : List DRow) : List Nat :=
  rows.foldl (fun v r => bump v (dayofweek r.time)) (List.replicate 7 0)

/-- Hour count vector of one dataframe: the inner loop of
`curve_by_hour` (`ret[name][row["Time"].hour] += 1` over the rows)
started from `[0 for x in range(24)]`. -/
def hourCounts (rows : List DRow) : List Nat :=
  rows.foldl (fun v r => bump v r.time.hour) (List.replicate 24 0)

/-- Embedding of `curve_by_weekday(dfs, ...)`: its observable outcome is
the per-name count vectors it plots, or the `ValueError` raised when
there are more dataframes than line styles (7). Python dict keys are
unique, so each name's vector accumulates exactly its own dataframe's
rows. -/
def curve_by_weekday (dfs : List (String × List DRow)) :
    Except String (List (String × List Nat)) :=
  if 7 < dfs.length then .error "not enough colors to display curves"
  else .ok (dfs.map (fun p => (p.1, weekCounts p.2)))

/-- Embedding of `curve_by_hour(dfs, ...)`, like `curve_by_weekday` with
24 hour slots. -/
def curve_by_hour (dfs : List (String × List DRow)) :
    Except String (List (String × List Nat)) :=
  if 7 < dfs.length then .error "not enough colors to display curves"
  else .ok (dfs.map (fun p => (p.1, hourCounts p.2)))

theorem bump_length : ∀ (v : List Nat) (i : Nat), (bump v i).length = v.length := by
  intro v
  induction v with
  | nil => intro i; rfl
  | cons x xs ih =>
    intro i
    cases i with
    | zero => rfl
    | succ n => simp [bump, ih n]

theorem bump_getD : ∀ (v : List Nat) (i d : Nat), d < v.length →
    (bump v i).getD d 0 = v.getD d 0 + (if i = d then 1 else 0) := by
  intro v
  induction v with
  | nil => intro i d hd; simp at hd
  | cons x xs ih =>
    intro i d hd
    cases i with
    | zero =>
      cases d with
      | zero => simp [bump]
      | succ d => simp [bump]
    | succ n =>
      cases d with
      | zero => simp [bump]
      | succ d =>
        have hd' : d < xs.length := by simpa using hd
        simp only [bump, List.getD_cons_succ]
        rw [ih n d hd']
        congr 1
        simp

theorem bump_sum : ∀ (v : List Nat) (i : Nat), i < v.length →
    (bump v i).sum = v.sum + 1 := by
  intro v
  induction v with
  | nil => intro i hi; simp at hi
  | cons x xs ih =>
    intro i hi
    cases i with
    | zero => simp [bump]; omega
    | succ n =>
      have hn : n < xs.length := by simpa using hi
      simp [bump, ih n hn]
      omega

theorem getD_replicate_zero : ∀ n d : Nat, (List.replicate n (0 : Nat)).getD d 0 = 0 := by
  intro n
  induction n with
  | zero => intro d; rfl
  | succ m ih =>
    intro d
    cases d with
    | zero => rfl
    | succ d => simpa [List.replicate_succ] using ih d

theorem foldBump_length (f : DRow → Nat) :
    ∀ (rows : List DRow) (v : List Nat),
      (rows.foldl (fun v r => bump v (f r)) v).length = v.length := by
  intro rows
  induction rows with
  | nil => intro v; rfl
  | cons r rs ih =>
    intro v
    rw [List.foldl_cons, ih, bump_length]

theorem foldBump_getD (f : DRow → Nat) :
    ∀ (rows : List DRow) (v : List Nat) (d : Nat), d < v.length →
      (rows.foldl (fun v r => bump v (f r)) v).getD d 0 =
        v.getD d 0 + rows.countP (fun r => f r == d) := by
  intro rows
  induction rows with
  | nil => intro v d _; simp
  | cons r rs ih =>
    intro v d hd
    rw [List.foldl_cons, ih (bump v (f r)) d (by rw [bump_length]; exact hd),
      bump_getD v (f r) d hd, List.countP_cons]
    by_cases h : f r = d <;> simp [h] <;> omega

theorem foldBump_sum (f : DRow → Nat) :
    ∀ (rows : List DRow) (v : List Nat), (∀ r ∈ rows, f r < v.length) →
      (rows.foldl (fun v r => bump v (f r)) v).sum = v.sum + rows.length := by
  intro rows
  induction rows with
  | nil => intro v _; rfl
  | cons r rs ih =>
    intro v hf
    rw [List.foldl_cons, ih (bump v (f r))
      (fun s hs => by rw [bump_length]; exact hf s (List.mem_cons_of_mem r hs)),
      bump_sum v (f r) (hf r (List.mem_cons_self r rs))]
    simp
    omega

/-- C6: with at most 7 dataframes both curve functions produce, for each
dataframe, its count vector; `weekCounts` has 7 slots, slot `d` counts
the rows whose Time has day-of-week `d`, and the slots sum to the row
count; `hourCounts` has 24 slots and (hours being valid clock hours)
slot `h` counts the rows with hour `h` and the slots sum to the row
count; with more than 7 dataframes both functions raise `ValueError`. -/
theorem curve_by_weekday_hour_counts :
    (∀ dfs : List (String × List DRow),
      (7 < dfs.length →
        curve_by_weekday dfs = .error "not enough colors to display curves" ∧
        curve_by_hour dfs = .error "not enough colors to display curves") ∧
      (dfs.length ≤ 7 →
        curve_by_weekday dfs = .ok (dfs.map (fun p => (p.1, weekCounts p.2))) ∧
        curve_by_hour dfs = .ok (dfs.map (fun p => (p.1, hourCounts p.2))))) ∧
    (∀ rows : List DRow,
      (weekCounts rows).length = 7 ∧
      (weekCounts rows).sum = rows.length ∧
      (∀ d, d < 7 →
        (weekCounts rows).getD d 0 = rows.countP (fun r => dayofweek r.time == d))) ∧
    (∀ rows : List DRow,
      (hourCounts rows).length = 24 ∧
      ((∀ r ∈ rows, r.time.hour < 24) →
        (hourCounts rows).sum = rows.length ∧
        (∀ h, h < 24 →
          (hourCounts rows).getD h 0 = rows.countP (fun r => r.time.hour == h)))) := by
  refine ⟨?_, ?_, ?_⟩
  · intro dfs
    constructor
    · intro hlen
      constructor <;> simp [curve_by_weekday, curve_by_hour, if_pos hlen]
    · intro hlen
      constructor <;> simp [curve_by_weekday, curve_by_hour, if_neg (by omega : ¬ 7 < dfs.length)]
  · intro rows
    refine ⟨?_, ?_, ?_⟩
    · rw [weekCounts, foldBump_length]
      simp
    · rw [weekCounts, foldBump_sum _ rows (List.replicate 7 0)
        (fun r _ => by simpa using dayofweek_lt_7 r.time)]
      simp
    · intro d hd
      rw [weekCounts, foldBump_getD _ rows (List.replicate 7 0) d (by simpa using hd),
        getD_replicate_zero]
      simp
  · intro rows
    refine ⟨?_, ?_⟩
    · rw [hourCounts, foldBump_length]
      simp
    · intro hvalid
      refine ⟨?_, ?_⟩
      · rw [hourCounts, foldBump_sum _ rows (List.replicate 24 0)
          (fun r hr => by simpa using hvalid r hr)]
        simp
      · intro hh hhlt
        rw [hourCounts, foldBump_getD _ rows (List.replicate 24 0) hh (by simpa using hhlt),
          getD_replicate_zero]
        simp

/-! ### Category pie chart -/

/-- pandas `df["Cat"].value_counts()`: one entry per distinct category
with its number of occurrences, sorted by count in descending order
(stable merge sort; pandas leaves the order of tied counts
unspecified). -/
def value_counts (rows : List DRow) : List (String × Nat) :=
  (((rows.map (fun r => r.cat)).dedup).map
    (fun c => (c, rows.countP (fun r => r.cat == c)))).mergeSort
      (fun a b => decide (b.2 ≤ a.2))

/-- The slice sizes plotted by `cat_pie_display(df, show_cat, ...)`: the
counts of the first `show_cat` entries of `value_counts`, followed — when
categories remain — by an `OTHER` slice holding the sum of the remaining
counts. -/
def cat_pie_sizes (rows : List DRow) (show_cat : Nat) : List Nat :=
  let sod := value_counts rows
  let sizes := (sod.take show_cat).map (fun p => p.2)
  if show_cat < sod.length then
    sizes ++ [((sod.drop show_cat).map (fun p => p.2)).sum]
  else sizes

theorem countP_or_of_disjoint (p q : DRow → Bool)
    (hdisj : ∀ r : DRow, ¬ (p r = true ∧ q r = true)) :
    ∀ l : List DRow, l.countP (fun r => p r || q r) = l.countP p + l.countP q := by
  intro l
  induction l with
  | nil => rfl
  | cons r rs ih =>
    rw [List.countP_cons, List.countP_cons, List.countP_cons, ih]
    cases hp : p r <;> cases hq : q r <;> simp <;> first
      | omega
      | exact absurd ⟨hp, hq⟩ (hdisj r)

theorem sum_category_counts (cs : List String) (rows : List DRow) (h : cs.Nodup) :
    (cs.map (fun c => rows.countP (fun r => r.cat == c))).sum =
      (rows.filter (fun r => cs.contains r.cat)).length := by
  induction cs with
  | nil => simp
  | cons c cs' ih =>
    have hnd := List.nodup_cons.mp h
    rw [List.map_cons, List.sum_cons, ih hnd.2, ← List.countP_eq_length_filter,
      ← List.countP_eq_length_filter]
    have hdisj : ∀ r : DRow, ¬ ((r.cat == c) = true ∧ cs'.contains r.cat = true) := by
      rintro r ⟨h1, h2⟩
      have : r.cat = c := by simpa using h1
      rw [this] at h2
      exact hnd.1 (by simpa using h2)
    have hsum := countP_or_of_disjoint (fun r => r.cat == c) (fun r => cs'.contains r.cat) hdisj rows
    have hc : ∀ r : DRow, ((c :: cs').contains r.cat) = (r.cat == c || cs'.contains r.cat) := by
      intro r
      by_cases hrc : r.cat = c <;> simp [List.contains_cons, hrc]
    have hcount : rows.countP (fun r => (c :: cs').contains r.cat) =
        rows.countP (fun r => r.cat == c || cs'.contains r.cat) :=
      List.countP_congr (fun r _ => by rw [hc r])
    rw [hcount]
    exact hsum.symm

theorem value_counts_perm (rows : List DRow) :
    (value_counts rows).Perm
      (((rows.map (fun r => r.cat)).dedup).map
        (fun c => (c, rows.countP (fun r => r.cat == c)))) :=
  List.mergeSort_perm _ _

theorem value_counts_snd_sum (rows : List DRow) :
    ((value_counts rows).map (fun p => p.2)).sum = rows.length := by
  have hperm := (value_counts_perm rows).map (fun p => p.2)
  rw [hperm.sum_eq, List.map_map]
  have hcomp :
      ((fun p : String × Nat => p.2) ∘ (fun c => (c, rows.countP (fun r => r.cat == c)))) =
        fun c => rows.countP (fun r => r.cat == c) := rfl
  rw [hcomp, sum_category_counts _ rows (List.nodup_dedup _)]
  have hall : ∀ r ∈ rows, ((rows.map (fun r => r.cat)).dedup).contains r.cat = true := by
    intro r hr
    have : r.cat ∈ (rows.map (fun r => r.cat)).dedup :=
      List.mem_dedup.mpr (List.mem_map_of_mem _ hr)
    simpa using this
  rw [List.filter_eq_self.mpr hall]

/-- C7: the pie slice sizes of `cat_pie_display` always sum to the number
of rows; `value_counts` lists every distinct category with its exact
count, in descending order of count, and the sizes are the counts of the
first (most frequent) `show_cat` entries followed by an `OTHER` slice
summing the rest whenever `show_cat` leaves categories out. -/
theorem cat_pie_sizes_spec :
    (∀ (rows : List DRow) (show_cat : Nat),
      (cat_pie_sizes rows show_cat).sum = rows.length) ∧
    (∀ rows : List DRow,
      ((value_counts rows).map (fun p => p.2)).Sorted (· ≥ ·)) ∧
    (∀ (rows : List DRow) (p : String × Nat), p ∈ value_counts rows →
      p.2 = rows.countP (fun r => r.cat == p.1)) ∧
    (∀ rows : List DRow,
      (value_counts rows).length = ((rows.map (fun r => r.cat)).dedup).length) ∧
    (∀ (rows : List DRow) (c : String),
      (∃ n, (c, n) ∈ value_counts rows) ↔ c ∈ rows.map (fun r => r.cat)) ∧
    (∀ (rows : List DRow) (show_cat : Nat), show_cat < (value_counts rows).length →
      cat_pie_sizes rows show_cat =
        ((value_counts rows).take show_cat).map (fun p => p.2) ++
          [((value_counts rows).drop show_cat).map (fun p => p.2)].map List.sum) ∧
    (∀ (rows : List DRow) (show_cat : Nat), (value_counts rows).length ≤ show_cat →
      cat_pie_sizes rows show_cat = (value_counts rows).map (fun p => p.2)) := by
  refine ⟨?_, ?_, ?_, ?_, ?_, ?_, ?_⟩
  · intro rows show_cat
    rw [cat_pie_sizes]
    by_cases hlt : show_cat < (value_counts rows).length
    · rw [if_pos hlt, List.sum_append]
      have hsplit :
          ((value_counts rows).take show_cat).map (fun p => p.2) ++
            ((value_counts rows).drop show_cat).map (fun p => p.2) =
          (value_counts rows).map (fun p => p.2) := by
        rw [← List.map_append, List.take_append_drop]
      have := value_counts_snd_sum rows
      rw [← hsplit, List.sum_append] at this
      simpa using this
    · rw [if_neg hlt, List.take_of_length_le (by omega)]
      exact value_counts_snd_sum rows
  · intro rows
    have hpair : ((((rows.map (fun r => r.cat)).dedup).map
        (fun c => (c, rows.countP (fun r => r.cat == c)))).mergeSort
          (fun a b => decide (b.2 ≤ a.2))).Pairwise
        (fun a b : String × Nat => decide (b.2 ≤ a.2) = true) :=
      List.sorted_mergeSort
        (fun a b c h1 h2 => by
          simp only [decide_eq_true_eq] at h1 h2 ⊢
          omega)
        (fun a b => by
          simp only [Bool.or_eq_true, decide_eq_true_eq]
          omega)
        (((rows.map (fun r => r.cat)).dedup).map
          (fun c => (c, rows.countP (fun r => r.cat == c))))
    exact hpair.map _ (fun a b hab => by simpa using of_decide_eq_true hab)
  · intro rows p hp
    have hmem := (value_counts_perm rows).mem_iff.mp hp
    rcases List.mem_map.mp hmem with ⟨c, _, rfl⟩
    rfl
  · intro rows
    exact (value_counts_perm rows).length_eq.trans (List.length_map _ _)
  · intro rows c
    constructor
    · rintro ⟨n, hn⟩
      have hmem := (value_counts_perm rows).mem_iff.mp hn
      rcases List.mem_map.mp hmem with ⟨c', hc', heq⟩
      have : c' = c := congrArg Prod.fst heq
      rw [← this]
      exact List.mem_dedup.mp hc'
    · intro hc
      refine ⟨rows.countP (fun r => r.cat == c), ?_⟩
      exact (value_counts_perm rows).mem_iff.mpr
        (List.mem_map_of_mem _ (List.mem_dedup.mpr hc))
  · intro rows show_cat hlt
    rw [cat_pie_sizes, if_pos hlt]
    simp
  · intro rows show_cat hle
    rw [cat_pie_sizes, if_neg (by omega), List.take_of_length_le hle]

end CrimeAnalytics
